/-
Verification development for `src/scraper.py`
(Secondary_Google_Account_Group_Turnover_Scraper).

The program is embedded shallowly:
  * Python strings are modelled as `List Char` (`Str`); `str.strip`,
    `str.lower` and single-character `str.replace` are modelled on lists.
  * `create_endole_slug` is translated step by step from scraper.py lines
    50-60.
  * `scrape_company_data` (lines 62-80) is modelled by its observable
    behaviour: navigation/load failures raise (propagate to the row-level
    handler), while the extraction block swallows its own exceptions and
    returns the sentinel "N/A"; a successful extraction returns the
    stripped text.
  * The module-level sheet setup (lines 29-45) and the row loop of `main`
    (lines 101-143) are modelled as pure functions that also return the
    trace of externally observable events (header write, fetch calls,
    cell writes) and a per-row outcome list.
-/
import Mathlib

set_option linter.unusedVariables false

abbrev Str := List Char

/-- The characters Python's `str.strip()` removes, i.e. those whose
`str.isspace()` is true: `\t \n \v \f \r` (9-13), the separators
U+1C-U+1F (28-31), the space (32), next line U+85 (133), no-break space
U+A0 (160), ogham space U+1680 (5760), the Unicode spaces
U+2000-U+200A (8192-8202), line/paragraph separators U+2028/U+2029
(8232/8233), narrow no-break space U+202F (8239), medium mathematical
space U+205F (8287) and ideographic space U+3000 (12288). -/
def pyIsSpace (c : Char) : Bool :=
  decide ((9 ≤ c.toNat ∧ c.toNat ≤ 13) ∨ (28 ≤ c.toNat ∧ c.toNat ≤ 31) ∨
    c.toNat = 32 ∨ c.toNat = 133 ∨ c.toNat = 160 ∨ c.toNat = 5760 ∨
    (8192 ≤ c.toNat ∧ c.toNat ≤ 8202) ∨ c.toNat = 8232 ∨ c.toNat = 8233 ∨
    c.toNat = 8239 ∨ c.toNat = 8287 ∨ c.toNat = 12288)

/-- Model of Python `str.strip()`: drop whitespace from both ends. -/
def pyStrip (l : Str) : Str :=
  ((l.dropWhile pyIsSpace).reverse.dropWhile pyIsSpace).reverse

/-- Model of Python `str.lower()` on the basic latin range (the only case
relevant to the scraper's data). -/
def pyLower (l : Str) : Str := l.map Char.toLower

/-- `.replace("&", "and")` from scraper.py line 54. -/
def ampToAnd (l : Str) : Str :=
  l.flatMap (fun c => if c = '&' then ['a', 'n', 'd'] else [c])

/-- The characters deleted by lines 55-58: `,` `.` `'` `’`. -/
def isRemoved (c : Char) : Bool :=
  c = ',' || c = '.' || c = '\'' || c = '’'

/-- `create_endole_slug` (scraper.py lines 50-60):
`strip` then `lower`, replace `&` by `and`, delete `,` `.` `'` `’`,
then replace each space character by a hyphen. -/
def create_endole_slug (s : Str) : Str :=
  ((ampToAnd (pyLower (pyStrip s))).filter (fun c => !isRemoved c)).map
    (fun c => if c = ' ' then '-' else c)

/-- Convenience: the char-list of a string literal. -/
def str (s : String) : Str := s.data

/-- `Modelled from the spec:` §4.1 step 4 asks that "every remaining
whitespace run" be replaced "with a single hyphen"; this run-collapsing
final step is not in the source (which maps each space to a hyphen), so it
is written here from the spec's words, for comparison with
`create_endole_slug`. -/
def collapseWsAux : Bool → Str → Str
  | _, [] => []
  | inRun, c :: rest =>
    if pyIsSpace c then
      if inRun then collapseWsAux true rest else '-' :: collapseWsAux true rest
    else c :: collapseWsAux false rest

def collapseWsRuns (l : Str) : Str := collapseWsAux false l

/-- The slug pipeline stages 1-3 (strip, lower, `&`→`and`, delete
punctuation), shared by the source slug and the spec-modelled slug. -/
def slugStem (s : Str) : Str :=
  (ampToAnd (pyLower (pyStrip s))).filter (fun c => !isRemoved c)

/-- `Modelled from the spec:` the slug derivation as §4.1 words it, with the
final step collapsing each maximal whitespace run to one hyphen. -/
def slug_spec (s : Str) : Str := collapseWsRuns (slugStem s)

-- ------------------------------------------------------------------
-- Fetch model (scrape_company_data, scraper.py lines 62-80)
-- ------------------------------------------------------------------

/-- Observable behaviour of the remote page for one `(reg_number, slug)`
address, as seen by `scrape_company_data`. -/
inductive FetchOutcome
  /-- `page.goto` / `wait_for_load_state` raises (navigation failure or
  timeout); the exception propagates to the caller. -/
  | navFail
  /-- an exception inside the extraction `try` block (lines 70-77): it is
  caught there and the sentinel is returned. -/
  | extractErr
  /-- the page loads but no financials frame / no turnover element is
  found: the sentinel is returned. -/
  | noValue
  /-- the turnover element is found with text `v`. -/
  | found (v : Str)
deriving DecidableEq

/-- The sentinel `"N/A"` (scraper.py line 69). -/
def naStr : Str := str "N/A"

/-- `scrape_company_data` modelled by outcome: `none` means the call raises
(navigation/timeout), `some t` means it returns turnover `t`. -/
def scrape_company_data : FetchOutcome → Option Str
  | .navFail => none
  | .extractErr => some naStr
  | .noValue => some naStr
  | .found v => some (pyStrip v)

-- ------------------------------------------------------------------
-- Events, outcomes, cache
-- ------------------------------------------------------------------

/-- Externally observable side effects of the run: the header write of
line 38 (`sheet.update`), a Fetch Client invocation (line 125, also
counting invocations that end in a raised navigation error), and a
`sheet.update_cell` write (line 128). -/
inductive Event
  | headerWrite
  | fetchCall (reg slug : Str)
  | cellWrite (r c : Nat) (v : Str)
deriving DecidableEq

/-- How one row of the loop body (lines 104-143) ended. -/
inductive RowOutcome
  /-- line 111: empty identifier/name or `nan` identifier. -/
  | skippedInvalid
  /-- line 114: target cell already non-empty after strip. -/
  | skippedFilled
  /-- the row-level `except` (line 142) caught an exception: the row is
  abandoned for this run. -/
  | abandoned
  /-- the value `v` was written to the row; `fetched` is true when it came
  from a fresh fetch rather than the cache. -/
  | persisted (v : Str) (fetched : Bool)
deriving DecidableEq

/-- `turnover_cache` (line 101): a `dict[tuple[str, str], str]`, modelled
as an association list where the most recent binding wins. -/
abbrev Cache := List ((Str × Str) × Str)

/-- Dict lookup: first (most recent) binding of the key. -/
def lookupCache : Cache → (Str × Str) → Option Str
  | [], _ => none
  | (k, v) :: rest, k' => if k = k' then some v else lookupCache rest k'

/-- Column offsets resolved at lines 43-45 plus the remote world the
Fetch Client observes (deterministic for one run). -/
structure Cfg where
  regNumIdx : Nat
  regNameIdx : Nat
  turnoverIdx : Nat
  world : Str → Str → FetchOutcome

/-- The string `"nan"` (line 111). -/
def nanStr : Str := str "nan"

/-- One iteration of the row loop (scraper.py lines 104-143) for the row at
in-memory index `idx`. Returns the new cache, the emitted events, and the
row outcome. A missing cell (`IndexError`) is caught by the row-level
`except`, hence `abandoned` with no events. -/
def processRow (cfg : Cfg) (idx : Nat) (row : List Str) (cache : Cache) :
    Cache × List Event × RowOutcome :=
  match row[cfg.regNumIdx]?, row[cfg.regNameIdx]?, row[cfg.turnoverIdx]? with
  | some rn, some nm, some tv =>
    let reg := pyStrip rn
    let name := pyStrip nm
    let tval := if tv ≠ [] then pyStrip tv else []
    if reg = [] || name = [] || pyLower reg = nanStr then
      (cache, [], .skippedInvalid)
    else if tval ≠ [] then
      (cache, [], .skippedFilled)
    else
      let slug := create_endole_slug name
      let key := (reg, slug)
      match lookupCache cache key with
      | some t =>
        (cache, [.cellWrite (idx + 2) (cfg.turnoverIdx + 1) t], .persisted t false)
      | none =>
        match scrape_company_data (cfg.world reg slug) with
        | none => (cache, [.fetchCall reg slug], .abandoned)
        | some t =>
          ((key, t) :: cache,
           [.fetchCall reg slug, .cellWrite (idx + 2) (cfg.turnoverIdx + 1) t],
           .persisted t true)
  | _, _, _ => (cache, [], .abandoned)

/-- The whole row loop from in-memory index `idx` on. -/
def runRows (cfg : Cfg) : Nat → List (List Str) → Cache →
    Cache × List Event × List RowOutcome
  | _, [], cache => (cache, [], [])
  | idx, row :: rest, cache =>
    let r1 := processRow cfg idx row cache
    let r2 := runRows cfg (idx + 1) rest r1.1
    (r2.1, r1.2.1 ++ r2.2.1, r1.2.2 :: r2.2.2)

-- ------------------------------------------------------------------
-- Module-level setup (scraper.py lines 29-45) and full pipeline
-- ------------------------------------------------------------------

/-- Header literals of lines 34 and 43-44. -/
def ivtStr : Str := str "Individual Turnover"

def chrnStr : Str := str "Companies House Regestration Number"

def companyStr : Str := str "Company"

/-- Lines 34-37: append the target column to the header and an empty cell
to every row when it is absent. -/
def setupStage (headers0 : List Str) (rows0 : List (List Str)) :
    List Str × List (List Str) :=
  if ivtStr ∈ headers0 then (headers0, rows0)
  else (headers0 ++ [ivtStr], rows0.map (fun r => r ++ [[]]))

/-- Lines 43-45: `headers.index(...)` for the three columns; `none` models
the `ValueError` that aborts the run. -/
def findCols (headers : List Str) : Option (Nat × Nat × Nat) :=
  match headers.findIdx? (· = chrnStr), headers.findIdx? (· = companyStr),
      headers.findIdx? (· = ivtStr) with
  | some a, some b, some c => some (a, b, c)
  | _, _, _ => none

/-- Result of a whole run: the event trace, `some` per-row outcomes when
the loop ran (or `none` when the schema lookup aborted the run first), and
the final cache. -/
structure RunResult where
  events : List Event
  outcomes : Option (List RowOutcome)
  cache : Cache
deriving DecidableEq

/-- The whole program: setup (append target column, one unconditional
header write, resolve column offsets; abort on a missing column) followed
by the row loop over `world`. -/
def runPipeline (world : Str → Str → FetchOutcome)
    (headers0 : List Str) (rows0 : List (List Str)) : RunResult :=
  let s := setupStage headers0 rows0
  match findCols s.1 with
  | none => ⟨[.headerWrite], none, []⟩
  | some (a, b, c) =>
    let r := runRows ⟨a, b, c, world⟩ 0 s.2 []
    ⟨.headerWrite :: r.2.1, some r.2.2, r.1⟩

-- ------------------------------------------------------------------
-- Trace and outcome observers
-- ------------------------------------------------------------------

def isHeaderWrite : Event → Bool
  | .headerWrite => true
  | _ => false

def isFetch : Event → Bool
  | .fetchCall _ _ => true
  | _ => false

def isFetchFor (k : Str × Str) : Event → Bool
  | .fetchCall r s => (r, s) = k
  | _ => false

def isCellWrite : Event → Bool
  | .cellWrite _ _ _ => true
  | _ => false

def isCellWriteAt (r : Nat) : Event → Bool
  | .cellWrite r' _ _ => r' = r
  | _ => false

/-- A Data Store Client write of either kind (header or cell). -/
def isStoreWrite : Event → Bool
  | .fetchCall _ _ => false
  | _ => true

def countFetches (evs : List Event) : Nat := (evs.filter isFetch).length

def countFetchesFor (k : Str × Str) (evs : List Event) : Nat :=
  (evs.filter (isFetchFor k)).length

def countCellWrites (evs : List Event) : Nat := (evs.filter isCellWrite).length

def countCellWritesAt (r : Nat) (evs : List Event) : Nat :=
  (evs.filter (isCellWriteAt r)).length

def countStoreWrites (evs : List Event) : Nat := (evs.filter isStoreWrite).length

def countHeaderWrites (evs : List Event) : Nat := (evs.filter isHeaderWrite).length

/-- The value a row outcome persisted, if any. -/
def persistedVal : RowOutcome → Option Str
  | .persisted v _ => some v
  | _ => none

/-- The identity a row would use if it reaches the cache/fetch stage:
`some (trimmed identifier, slug)` exactly when the row passes the
invalid-row and already-filled checks (and all three cells exist). -/
def rowKeyOf (cfg : Cfg) (row : List Str) : Option (Str × Str) :=
  match row[cfg.regNumIdx]?, row[cfg.regNameIdx]?, row[cfg.turnoverIdx]? with
  | some rn, some nm, some tv =>
    let reg := pyStrip rn
    let name := pyStrip nm
    let tval := if tv ≠ [] then pyStrip tv else []
    if reg = [] || name = [] || pyLower reg = nanStr then none
    else if tval ≠ [] then none
    else some (reg, create_endole_slug name)
  | _, _, _ => none

/-- All cached values are values the world would actually return for their
key (the cache is only ever filled from successful fetches). -/
def CacheSound (world : Str → Str → FetchOutcome) (cache : Cache) : Prop :=
  ∀ k v, lookupCache cache k = some v → scrape_company_data (world k.1 k.2) = some v

/-- No two adjacent whitespace characters: every maximal whitespace run
has length one. -/
def noAdjWs : Str → Bool
  | [] => true
  | [_] => true
  | a :: b :: rest => !(pyIsSpace a && pyIsSpace b) && noAdjWs (b :: rest)

/-- 1 when the key is cached, 0 when not. -/
def keyFlag (cache : Cache) (K : Str × Str) : Nat :=
  match lookupCache cache K with
  | some _ => 1
  | none => 0

/-- §8 of the spec: the worked slug example. -/
theorem slug_example : create_endole_slug (str "O'Brien & Sons, Ltd.") = str "obrien-and-sons-ltd" := by
  decide

-- ------------------------------------------------------------------
-- Character-level lemmas about Char.toLower
-- ------------------------------------------------------------------

theorem charToNat_ofNat {n : Nat} (h : n.isValidChar) : (Char.ofNat n).toNat = n := by
  rw [Char.ofNat, dif_pos h]
  rfl

theorem toLower_cases (c : Char) :
    (65 ≤ c.toNat ∧ c.toNat ≤ 90 ∧ c.toLower.toNat = c.toNat + 32) ∨
    (¬(65 ≤ c.toNat ∧ c.toNat ≤ 90) ∧ c.toLower = c) := by
  by_cases h : 65 ≤ c.toNat ∧ c.toNat ≤ 90
  · left
    refine ⟨h.1, h.2, ?_⟩
    have hv : Nat.isValidChar (c.toNat + 32) := Or.inl (by omega)
    simp only [Char.toLower]
    rw [if_pos ⟨h.1, h.2⟩]
    exact charToNat_ofNat hv
  · right
    refine ⟨h, ?_⟩
    simp only [Char.toLower]
    rw [if_neg h]

theorem toLower_toLower (c : Char) : c.toLower.toLower = c.toLower := by
  rcases toLower_cases c with ⟨_, _, h3⟩ | ⟨_, h2⟩
  · rcases toLower_cases c.toLower with ⟨h4, h5, _⟩ | ⟨_, h5⟩
    · omega
    · exact h5
  · rw [h2, h2]

/-- No character in the printable band 33-132 — in particular no basic
latin letter, upper or lower case — is Python whitespace. -/
theorem pyIsSpace_false_of_range {c : Char} (h1 : 33 ≤ c.toNat) (h2 : c.toNat ≤ 132) :
    pyIsSpace c = false := by
  simp only [pyIsSpace, decide_eq_false_iff_not]
  omega

theorem pyIsSpace_toLower (c : Char) : pyIsSpace c.toLower = pyIsSpace c := by
  rcases toLower_cases c with ⟨h1, _, h3⟩ | ⟨_, h2⟩
  · rw [pyIsSpace_false_of_range (by omega) (by omega),
      pyIsSpace_false_of_range (by omega) (by omega)]
  · rw [h2]

theorem toLower_ne {c d : Char} (hd : d.toNat < 97 ∨ 122 < d.toNat) (hcd : c ≠ d) :
    c.toLower ≠ d := by
  rcases toLower_cases c with ⟨_, _, h3⟩ | ⟨_, h2⟩
  · intro he
    rw [he] at h3
    omega
  · rw [h2]
    exact hcd

-- ------------------------------------------------------------------
-- List-level identity lemmas for the slug stages
-- ------------------------------------------------------------------

theorem mem_pyStrip {c : Char} {l : Str} (h : c ∈ pyStrip l) : c ∈ l := by
  unfold pyStrip at h
  rw [List.mem_reverse] at h
  have h1 := List.dropWhile_subset pyIsSpace h
  rw [List.mem_reverse] at h1
  exact List.dropWhile_subset pyIsSpace h1

theorem dropWhile_of_none {p : Char → Bool} {l : Str} (h : ∀ c ∈ l, p c = false) :
    l.dropWhile p = l := by
  cases l with
  | nil => rfl
  | cons a rest =>
    rw [List.dropWhile_cons_of_neg]
    simp [h a (List.mem_cons_self a rest)]

theorem pyStrip_of_none {l : Str} (h : ∀ c ∈ l, pyIsSpace c = false) : pyStrip l = l := by
  unfold pyStrip
  rw [dropWhile_of_none h, dropWhile_of_none, List.reverse_reverse]
  intro c hc
  exact h c (List.mem_reverse.mp hc)

theorem map_of_fixed {f : Char → Char} {l : Str} (h : ∀ c ∈ l, f c = c) :
    l.map f = l := by
  induction l with
  | nil => rfl
  | cons a rest ih =>
    simp only [List.map_cons, h a (List.mem_cons_self a rest)]
    rw [ih (fun c hc => h c (List.mem_cons_of_mem a hc))]

theorem ampToAnd_of_none {l : Str} (h : ∀ c ∈ l, c ≠ '&') : ampToAnd l = l := by
  induction l with
  | nil => rfl
  | cons a rest ih =>
    have ha : a ≠ '&' := h a (List.mem_cons_self a rest)
    simp only [ampToAnd, List.flatMap_cons, if_neg ha]
    simp only [ampToAnd] at ih
    rw [ih (fun c hc => h c (List.mem_cons_of_mem a hc))]
    rfl

/-- Every character of a slug derived from an input whose whitespace is
only the plain space is: non-whitespace, fixed by `toLower`, not `&`, and
not one of the deleted punctuation characters. -/
theorem slug_char_facts {x : Str} (hx : ∀ c ∈ x, pyIsSpace c = true → c = ' ')
    {e : Char} (he : e ∈ create_endole_slug x) :
    pyIsSpace e = false ∧ e.toLower = e ∧ e ≠ '&' ∧ isRemoved e = false := by
  unfold create_endole_slug at he
  rcases List.mem_map.mp he with ⟨c, hc, rfl⟩
  rcases List.mem_filter.mp hc with ⟨hc1, hc2⟩
  rw [Bool.not_eq_eq_eq_not, Bool.not_true] at hc2
  by_cases hsp : c = ' '
  · subst hsp
    refine ⟨by decide, by decide, by decide, by decide⟩
  · rw [if_neg hsp]
    rcases List.mem_flatMap.mp hc1 with ⟨a, ha, hca⟩
    by_cases hamp : a = '&'
    · rw [if_pos hamp] at hca
      simp only [List.mem_cons, List.not_mem_nil, or_false] at hca
      rcases hca with rfl | rfl | rfl
      · exact ⟨by decide, by decide, by decide, hc2⟩
      · exact ⟨by decide, by decide, by decide, hc2⟩
      · exact ⟨by decide, by decide, by decide, hc2⟩
    · rw [if_neg hamp] at hca
      simp only [List.mem_singleton] at hca
      subst hca
      rcases List.mem_map.mp ha with ⟨c0, hc0, rfl⟩
      refine ⟨?_, toLower_toLower c0, hamp, hc2⟩
      rw [pyIsSpace_toLower]
      by_cases hs0 : pyIsSpace c0 = true
      · exfalso
        have : c0 = ' ' := hx c0 (mem_pyStrip hc0) hs0
        subst this
        exact hsp (by decide)
      · rw [Bool.not_eq_true] at hs0
        exact hs0

/-- On inputs whose whitespace is only the plain space character, the slug
derivation of the source is idempotent: every stage fixes its own output. -/
theorem create_endole_slug_idem {x : Str}
    (hx : ∀ c ∈ x, pyIsSpace c = true → c = ' ') :
    create_endole_slug (create_endole_slug x) = create_endole_slug x := by
  have hf : ∀ e ∈ create_endole_slug x,
      pyIsSpace e = false ∧ e.toLower = e ∧ e ≠ '&' ∧ isRemoved e = false :=
    fun e he => slug_char_facts hx he
  conv_lhs => rw [create_endole_slug]
  rw [pyStrip_of_none (fun c hc => (hf c hc).1)]
  rw [show pyLower (create_endole_slug x) = create_endole_slug x from
    map_of_fixed (fun c hc => (hf c hc).2.1)]
  rw [ampToAnd_of_none (fun c hc => (hf c hc).2.2.1)]
  rw [List.filter_eq_self.mpr (fun c hc => by rw [(hf c hc).2.2.2]; rfl)]
  refine map_of_fixed (fun c hc => ?_)
  have : c ≠ ' ' := by
    intro he
    have := (hf c hc).1
    rw [he] at this
    exact absurd this (by decide)
  rw [if_neg this]

-- ------------------------------------------------------------------
-- Whitespace-run structure for the spec comparison of the final step
-- ------------------------------------------------------------------

-- ------------------------------------------------------------------
-- Per-row characterization of the loop body
-- ------------------------------------------------------------------

theorem lookupCache_cons (k' : Str × Str) (t : Str) (cache : Cache) (k : Str × Str) :
    lookupCache ((k', t) :: cache) k = if k' = k then some t else lookupCache cache k := rfl

/-- Complete case analysis of one loop iteration: a row either never
reaches the identity stage (no events, cache untouched, nothing persisted),
or reaches it with its key and then hits the cache, fails the fetch, or
fetches fresh. -/
theorem processRow_spec (cfg : Cfg) (idx : Nat) (row : List Str) (cache : Cache) :
    (rowKeyOf cfg row = none ∧ (processRow cfg idx row cache).1 = cache ∧
      (processRow cfg idx row cache).2.1 = [] ∧
      persistedVal (processRow cfg idx row cache).2.2 = none) ∨
    (∃ key, rowKeyOf cfg row = some key ∧
      ((∃ t, lookupCache cache key = some t ∧
          processRow cfg idx row cache =
            (cache, [.cellWrite (idx + 2) (cfg.turnoverIdx + 1) t], .persisted t false)) ∨
       (lookupCache cache key = none ∧
          scrape_company_data (cfg.world key.1 key.2) = none ∧
          processRow cfg idx row cache =
            (cache, [.fetchCall key.1 key.2], .abandoned)) ∨
       (∃ t, lookupCache cache key = none ∧
          scrape_company_data (cfg.world key.1 key.2) = some t ∧
          processRow cfg idx row cache =
            ((key, t) :: cache,
             [.fetchCall key.1 key.2, .cellWrite (idx + 2) (cfg.turnoverIdx + 1) t],
             .persisted t true)))) := by
  rcases hrn : row[cfg.regNumIdx]? with _ | rn
  · left
    simp [processRow, rowKeyOf, hrn, persistedVal]
  rcases hnm : row[cfg.regNameIdx]? with _ | nm
  · left
    simp [processRow, rowKeyOf, hrn, hnm, persistedVal]
  rcases htv : row[cfg.turnoverIdx]? with _ | tv
  · left
    simp [processRow, rowKeyOf, hrn, hnm, htv, persistedVal]
  by_cases h1 : (pyStrip rn = [] || pyStrip nm = [] || pyLower (pyStrip rn) = nanStr) = true
  · left
    simp [processRow, rowKeyOf, hrn, hnm, htv, h1, persistedVal]
  · rw [Bool.not_eq_true] at h1
    by_cases h2 : ((if tv ≠ [] then pyStrip tv else []) = [])
    · have hkey : rowKeyOf cfg row = some (pyStrip rn, create_endole_slug (pyStrip nm)) := by
        simp [rowKeyOf, hrn, hnm, htv, h1, h2]
      rcases hcl : lookupCache cache (pyStrip rn, create_endole_slug (pyStrip nm)) with _ | t
      · rcases hsc : scrape_company_data
            (cfg.world (pyStrip rn) (create_endole_slug (pyStrip nm))) with _ | t
        · have hpr : processRow cfg idx row cache =
              (cache, [.fetchCall (pyStrip rn) (create_endole_slug (pyStrip nm))],
               .abandoned) := by
            simp [processRow, hrn, hnm, htv, h1, h2, hcl, hsc]
          exact Or.inr ⟨_, hkey, Or.inr (Or.inl ⟨hcl, hsc, hpr⟩)⟩
        · have hpr : processRow cfg idx row cache =
              (((pyStrip rn, create_endole_slug (pyStrip nm)), t) :: cache,
               [.fetchCall (pyStrip rn) (create_endole_slug (pyStrip nm)),
                .cellWrite (idx + 2) (cfg.turnoverIdx + 1) t],
               .persisted t true) := by
            simp [processRow, hrn, hnm, htv, h1, h2, hcl, hsc]
          exact Or.inr ⟨_, hkey, Or.inr (Or.inr ⟨t, hcl, hsc, hpr⟩)⟩
      · have hpr : processRow cfg idx row cache =
            (cache, [.cellWrite (idx + 2) (cfg.turnoverIdx + 1) t], .persisted t false) := by
          simp [processRow, hrn, hnm, htv, h1, h2, hcl]
        exact Or.inr ⟨_, hkey, Or.inl ⟨t, hcl, hpr⟩⟩
    · left
      have htv0 : tv ≠ [] := by
        intro h
        exact h2 (by simp [h])
      have htv1 : pyStrip tv ≠ [] := by
        intro h
        exact h2 (by simp [htv0, h])
      simp [processRow, rowKeyOf, hrn, hnm, htv, h1, htv0, htv1, persistedVal]

theorem runRows_nil (cfg : Cfg) (idx : Nat) (cache : Cache) :
    runRows cfg idx [] cache = (cache, [], []) := rfl

theorem runRows_cons (cfg : Cfg) (idx : Nat) (row : List Str) (rest : List (List Str))
    (cache : Cache) :
    runRows cfg idx (row :: rest) cache =
      ((runRows cfg (idx + 1) rest (processRow cfg idx row cache).1).1,
       (processRow cfg idx row cache).2.1 ++
         (runRows cfg (idx + 1) rest (processRow cfg idx row cache).1).2.1,
       (processRow cfg idx row cache).2.2 ::
         (runRows cfg (idx + 1) rest (processRow cfg idx row cache).1).2.2) := rfl

theorem countFetchesFor_append (K : Str × Str) (a b : List Event) :
    countFetchesFor K (a ++ b) = countFetchesFor K a + countFetchesFor K b := by
  simp [countFetchesFor, List.filter_append]

theorem countCellWritesAt_append (r : Nat) (a b : List Event) :
    countCellWritesAt r (a ++ b) = countCellWritesAt r a + countCellWritesAt r b := by
  simp [countCellWritesAt, List.filter_append]

/-- One loop iteration, when the world answers the fetch for key `K` with
value `vK`: the cache stays sound, a fetch for `K` happens exactly on the
transition of `K` from uncached to cached, cached keys stay cached, and a
row whose identity is `K` always persists `vK` and leaves `K` cached. -/
theorem processRow_success_step (cfg : Cfg) (K : Str × Str) (vK : Str)
    (hS : scrape_company_data (cfg.world K.1 K.2) = some vK)
    (idx : Nat) (row : List Str) (cache : Cache)
    (hsound : CacheSound cfg.world cache) :
    CacheSound cfg.world (processRow cfg idx row cache).1 ∧
    keyFlag cache K + countFetchesFor K (processRow cfg idx row cache).2.1 =
      keyFlag (processRow cfg idx row cache).1 K ∧
    (∀ v, lookupCache cache K = some v →
      lookupCache (processRow cfg idx row cache).1 K = some v) ∧
    (rowKeyOf cfg row = some K →
      persistedVal (processRow cfg idx row cache).2.2 = some vK ∧
      lookupCache (processRow cfg idx row cache).1 K = some vK) := by
  rcases processRow_spec cfg idx row cache with ⟨hnone, hc, hev, _⟩ |
    ⟨key, hkey, ⟨t, hcl, hpr⟩ | ⟨hcl, hsc, hpr⟩ | ⟨t, hcl, hsc, hpr⟩⟩
  · rw [hc, hev]
    refine ⟨hsound, by simp [countFetchesFor], fun v hv => hv, fun hk => ?_⟩
    rw [hnone] at hk
    cases hk
  · rw [hpr]
    refine ⟨hsound, by simp [countFetchesFor, isFetchFor], fun v hv => hv, fun hk => ?_⟩
    rw [hkey] at hk
    have hkK : key = K := Option.some.inj hk
    rw [hkK] at hcl
    have hst := hsound K t hcl
    rw [hS] at hst
    have htv : vK = t := Option.some.inj hst
    rw [← htv] at hcl ⊢
    exact ⟨rfl, hcl⟩
  · rw [hpr]
    have hne : key ≠ K := by
      intro he
      rw [he, hS] at hsc
      cases hsc
    refine ⟨hsound, ?_, fun v hv => hv, fun hk => ?_⟩
    · have hf : isFetchFor K (.fetchCall key.1 key.2) = false := by
        simp [isFetchFor, hne]
      simp [countFetchesFor, List.filter, hf]
    · rw [hkey] at hk
      exact absurd (Option.some.inj hk) hne
  · rw [hpr]
    have hsound' : CacheSound cfg.world (((key, t)) :: cache) := by
      intro k v hkv
      rw [lookupCache_cons] at hkv
      by_cases he : key = k
      · rw [if_pos he] at hkv
        have hv := Option.some.inj hkv
        rw [← hv, ← he]
        exact hsc
      · rw [if_neg he] at hkv
        exact hsound k v hkv
    by_cases he : key = K
    · have htv : vK = t := by
        rw [he, hS] at hsc
        exact Option.some.inj hsc
      rw [he] at hcl
      refine ⟨hsound', ?_, ?_, fun _ => ?_⟩
      · have hf : isFetchFor K (.fetchCall key.1 key.2) = true := by
          simp [isFetchFor, he]
        have hw2 : isFetchFor K (.cellWrite (idx + 2) (cfg.turnoverIdx + 1) t) = false := rfl
        simp [countFetchesFor, List.filter, hf, hw2, keyFlag, hcl, lookupCache_cons, he,
          isFetchFor]
      · intro v hv
        rw [hcl] at hv
        cases hv
      · constructor
        · show persistedVal (.persisted t true) = some vK
          rw [persistedVal, htv]
        · rw [lookupCache_cons, if_pos he, htv]
    · refine ⟨hsound', ?_, ?_, fun hk => ?_⟩
      · have hf : isFetchFor K (.fetchCall key.1 key.2) = false := by
          simp [isFetchFor, he]
        have hw2 : isFetchFor K (.cellWrite (idx + 2) (cfg.turnoverIdx + 1) t) = false := rfl
        simp [countFetchesFor, List.filter, hf, hw2, keyFlag, lookupCache_cons, if_neg he]
      · intro v hv
        rw [lookupCache_cons, if_neg he]
        exact hv
      · rw [hkey] at hk
        exact absurd (Option.some.inj hk) he

/-- One loop iteration, when the world's fetch for key `K` raises
(navigation failure or timeout): a row whose identity is `K` emits exactly
one fetch and nothing else, is abandoned, and leaves the cache unchanged;
rows with another identity emit no fetch for `K`. -/
theorem processRow_fail_step (cfg : Cfg) (K : Str × Str)
    (hN : scrape_company_data (cfg.world K.1 K.2) = none)
    (idx : Nat) (row : List Str) (cache : Cache)
    (hsound : CacheSound cfg.world cache) :
    CacheSound cfg.world (processRow cfg idx row cache).1 ∧
    countFetchesFor K (processRow cfg idx row cache).2.1 =
      (if rowKeyOf cfg row = some K then 1 else 0) ∧
    (rowKeyOf cfg row = some K →
      processRow cfg idx row cache = (cache, [.fetchCall K.1 K.2], .abandoned)) := by
  rcases processRow_spec cfg idx row cache with ⟨hnone, hc, hev, _⟩ |
    ⟨key, hkey, ⟨t, hcl, hpr⟩ | ⟨hcl, hsc, hpr⟩ | ⟨t, hcl, hsc, hpr⟩⟩
  · rw [hc, hev, hnone]
    refine ⟨hsound, by simp [countFetchesFor], fun hk => ?_⟩
    cases hk
  · have hne : key ≠ K := by
      intro he
      have := hsound key t hcl
      rw [he, hN] at this
      cases this
    rw [hpr, hkey]
    have hne2 : ¬(some key = some K) := fun h => hne (Option.some.inj h)
    refine ⟨hsound, ?_, fun hk => absurd hk hne2⟩
    rw [if_neg hne2]
    simp [countFetchesFor, List.filter, isCellWrite, isFetchFor]
  · rw [hpr, hkey]
    by_cases he : key = K
    · subst he
      refine ⟨hsound, ?_, fun _ => rfl⟩
      rw [if_pos rfl]
      have hf : isFetchFor key (.fetchCall key.1 key.2) = true := by
        simp [isFetchFor]
      simp [countFetchesFor, List.filter, hf]
    · have hne2 : ¬(some key = some K) := fun h => he (Option.some.inj h)
      refine ⟨hsound, ?_, fun hk => absurd hk hne2⟩
      rw [if_neg hne2]
      have hf : isFetchFor K (.fetchCall key.1 key.2) = false := by
        simp [isFetchFor, he]
      simp [countFetchesFor, List.filter, hf]
  · have hne : key ≠ K := by
      intro he
      rw [he, hN] at hsc
      cases hsc
    have hsound' : CacheSound cfg.world (((key, t)) :: cache) := by
      intro k v hkv
      rw [lookupCache_cons] at hkv
      by_cases he : key = k
      · rw [if_pos he] at hkv
        have hv := Option.some.inj hkv
        rw [← hv, ← he]
        exact hsc
      · rw [if_neg he] at hkv
        exact hsound k v hkv
    rw [hpr, hkey]
    have hne2 : ¬(some key = some K) := fun h => hne (Option.some.inj h)
    refine ⟨hsound', ?_, fun hk => absurd hk hne2⟩
    rw [if_neg hne2]
    have hf : isFetchFor K (.fetchCall key.1 key.2) = false := by
      simp [isFetchFor, hne]
    have hw2 : isFetchFor K (.cellWrite (idx + 2) (cfg.turnoverIdx + 1) t) = false := rfl
    simp [countFetchesFor, List.filter, hf, hw2]

/-- Every cell write emitted by one loop iteration targets grid row
`idx + 2` and the target column `turnoverIdx + 1`. -/
theorem processRow_writes_at (cfg : Cfg) (idx : Nat) (row : List Str) (cache : Cache) :
    ∀ r c v, Event.cellWrite r c v ∈ (processRow cfg idx row cache).2.1 →
      r = idx + 2 ∧ c = cfg.turnoverIdx + 1 := by
  intro r c v hmem
  rcases processRow_spec cfg idx row cache with ⟨_, _, hev, _⟩ |
    ⟨key, _, ⟨t, _, hpr⟩ | ⟨_, _, hpr⟩ | ⟨t, _, _, hpr⟩⟩
  · rw [hev] at hmem
    cases hmem
  · rw [hpr] at hmem
    simp only [List.mem_cons, List.not_mem_nil, or_false] at hmem
    exact ⟨(Event.cellWrite.inj hmem).1, (Event.cellWrite.inj hmem).2.1⟩
  · rw [hpr] at hmem
    simp only [List.mem_cons, List.not_mem_nil, or_false] at hmem
    cases hmem
  · rw [hpr] at hmem
    simp only [List.mem_cons, List.not_mem_nil, or_false] at hmem
    rcases hmem with hmem | hmem
    · cases hmem
    · exact ⟨(Event.cellWrite.inj hmem).1, (Event.cellWrite.inj hmem).2.1⟩

/-- A row that persisted nothing emitted no cell write at all. -/
theorem processRow_no_write (cfg : Cfg) (idx : Nat) (row : List Str) (cache : Cache)
    (h : persistedVal (processRow cfg idx row cache).2.2 = none) :
    ∀ e ∈ (processRow cfg idx row cache).2.1, isCellWrite e = false := by
  intro e he
  rcases processRow_spec cfg idx row cache with ⟨_, _, hev, _⟩ |
    ⟨key, _, ⟨t, _, hpr⟩ | ⟨_, _, hpr⟩ | ⟨t, _, _, hpr⟩⟩
  · rw [hev] at he
    cases he
  · rw [hpr] at h
    cases h
  · rw [hpr] at he
    simp only [List.mem_cons, List.not_mem_nil, or_false] at he
    rw [he]
    rfl
  · rw [hpr] at h
    cases h

/-- A persisting row emits exactly one cell write: at grid row `idx + 2`,
target column `turnoverIdx + 1`, carrying the persisted value — in both
the cache-hit path and the fresh-fetch path. -/
theorem processRow_persist_write (cfg : Cfg) (idx : Nat) (row : List Str) (cache : Cache)
    (v : Str) (b : Bool) (h : (processRow cfg idx row cache).2.2 = .persisted v b) :
    (processRow cfg idx row cache).2.1.filter isCellWrite =
      [Event.cellWrite (idx + 2) (cfg.turnoverIdx + 1) v] := by
  rcases processRow_spec cfg idx row cache with ⟨_, _, _, hpv⟩ |
    ⟨key, _, ⟨t, _, hpr⟩ | ⟨_, _, hpr⟩ | ⟨t, _, _, hpr⟩⟩
  · rw [h] at hpv
    cases hpv
  · rw [hpr] at h ⊢
    have : t = v := (RowOutcome.persisted.inj (by exact h)).1
    subst this
    rfl
  · rw [hpr] at h
    cases h
  · rw [hpr] at h ⊢
    have : t = v := (RowOutcome.persisted.inj (by exact h)).1
    subst this
    rfl

-- ------------------------------------------------------------------
-- Run-level invariants over the whole row loop
-- ------------------------------------------------------------------

/-- The loop produces one outcome per row. -/
theorem runRows_length (cfg : Cfg) :
    ∀ (rows : List (List Str)) (idx : Nat) (cache : Cache),
      (runRows cfg idx rows cache).2.2.length = rows.length := by
  intro rows
  induction rows with
  | nil => intro idx cache; rfl
  | cons row rest ih =>
    intro idx cache
    rw [runRows_cons]
    simp [ih]

/-- Run-level invariant when the fetch for key `K` succeeds with `vK`:
the cache stays sound, fetches for `K` happen exactly on the uncached to
cached transition of `K` (hence at most once per run), cached keys stay
cached, and each row whose identity is `K` persists exactly `vK` and
leaves `K` cached at the end of the run. -/
theorem runRows_success_inv (cfg : Cfg) (K : Str × Str) (vK : Str)
    (hS : scrape_company_data (cfg.world K.1 K.2) = some vK) :
    ∀ (rows : List (List Str)) (idx : Nat) (cache : Cache),
      CacheSound cfg.world cache →
      CacheSound cfg.world (runRows cfg idx rows cache).1 ∧
      keyFlag cache K + countFetchesFor K (runRows cfg idx rows cache).2.1 =
        keyFlag (runRows cfg idx rows cache).1 K ∧
      (∀ v, lookupCache cache K = some v →
        lookupCache (runRows cfg idx rows cache).1 K = some v) ∧
      (∀ (i : Nat) (row : List Str), rows[i]? = some row → rowKeyOf cfg row = some K →
        ∃ o, (runRows cfg idx rows cache).2.2[i]? = some o ∧ persistedVal o = some vK ∧
          lookupCache (runRows cfg idx rows cache).1 K = some vK) := by
  intro rows
  induction rows with
  | nil =>
    intro idx cache hsound
    refine ⟨hsound, by simp [countFetchesFor, runRows_nil], fun v hv => hv, ?_⟩
    intro i row hrow
    simp at hrow
  | cons row rest ih =>
    intro idx cache hsound
    obtain ⟨hs1, hf1, hm1, hp1⟩ := processRow_success_step cfg K vK hS idx row cache hsound
    obtain ⟨hs2, hf2, hm2, hp2⟩ := ih (idx + 1) (processRow cfg idx row cache).1 hs1
    rw [runRows_cons]
    refine ⟨hs2, ?_, ?_, ?_⟩
    · rw [countFetchesFor_append]
      dsimp only
      omega
    · intro v hv
      exact hm2 v (hm1 v hv)
    · intro i r hri hrk
      cases i with
      | zero =>
        simp only [List.getElem?_cons_zero] at hri
        have hr : r = row := (Option.some.inj hri).symm
        subst hr
        obtain ⟨hpv, hlk⟩ := hp1 hrk
        exact ⟨(processRow cfg idx r cache).2.2, by simp, hpv, hm2 vK hlk⟩
      | succ i =>
        simp only [List.getElem?_cons_succ] at hri
        obtain ⟨o, ho1, ho2, ho3⟩ := hp2 i r hri hrk
        exact ⟨o, by simpa using ho1, ho2, ho3⟩

/-- Run-level invariant when the fetch for key `K` raises: `K` is fetched
once per row whose identity is `K` (no caching of failures, no retries
beyond those rows), and every such row is abandoned. -/
theorem runRows_fail_inv (cfg : Cfg) (K : Str × Str)
    (hN : scrape_company_data (cfg.world K.1 K.2) = none) :
    ∀ (rows : List (List Str)) (idx : Nat) (cache : Cache),
      CacheSound cfg.world cache →
      CacheSound cfg.world (runRows cfg idx rows cache).1 ∧
      countFetchesFor K (runRows cfg idx rows cache).2.1 =
        rows.countP (fun r => rowKeyOf cfg r = some K) ∧
      (∀ (i : Nat) (row : List Str), rows[i]? = some row → rowKeyOf cfg row = some K →
        (runRows cfg idx rows cache).2.2[i]? = some RowOutcome.abandoned) := by
  intro rows
  induction rows with
  | nil =>
    intro idx cache hsound
    refine ⟨hsound, by simp [countFetchesFor, runRows_nil], ?_⟩
    intro i row hrow
    simp at hrow
  | cons row rest ih =>
    intro idx cache hsound
    obtain ⟨hs1, hf1, he1⟩ := processRow_fail_step cfg K hN idx row cache hsound
    obtain ⟨hs2, hf2, hp2⟩ := ih (idx + 1) (processRow cfg idx row cache).1 hs1
    rw [runRows_cons]
    refine ⟨hs2, ?_, ?_⟩
    · rw [countFetchesFor_append, hf1, hf2, List.countP_cons]
      by_cases hk : rowKeyOf cfg row = some K
      · simp [hk]
        omega
      · simp [hk]
    · intro i r hri hrk
      cases i with
      | zero =>
        simp only [List.getElem?_cons_zero] at hri
        have hr : r = row := (Option.some.inj hri).symm
        subst hr
        have := he1 hrk
        simp [this]
      | succ i =>
        simp only [List.getElem?_cons_succ] at hri
        have := hp2 i r hri hrk
        simpa using this

theorem countCellWritesAt_eq_zero {r : Nat} {evs : List Event}
    (h : ∀ e ∈ evs, isCellWriteAt r e = false) : countCellWritesAt r evs = 0 := by
  induction evs with
  | nil => rfl
  | cons e rest ih =>
    have he := h e (List.mem_cons_self e rest)
    simp only [countCellWritesAt, List.filter, he]
    exact ih (fun e' he' => h e' (List.mem_cons_of_mem e he'))

/-- Every cell write of the loop suffix starting at `idx` targets a grid
row at or below position `idx + 2`. -/
theorem runRows_writes_ge (cfg : Cfg) :
    ∀ (rows : List (List Str)) (idx : Nat) (cache : Cache) (r c : Nat) (v : Str),
      Event.cellWrite r c v ∈ (runRows cfg idx rows cache).2.1 → idx + 2 ≤ r := by
  intro rows
  induction rows with
  | nil =>
    intro idx cache r c v h
    cases h
  | cons row rest ih =>
    intro idx cache r c v h
    rw [runRows_cons] at h
    rcases List.mem_append.mp h with h | h
    · rw [(processRow_writes_at cfg idx row cache r c v h).1]
    · have := ih (idx + 1) (processRow cfg idx row cache).1 r c v h
      omega

/-- A row that persisted nothing has no cell write anywhere in the whole
run at its own grid position `idx + i + 2`. -/
theorem runRows_no_write_at (cfg : Cfg) :
    ∀ (rows : List (List Str)) (idx : Nat) (cache : Cache) (i : Nat) (o : RowOutcome),
      (runRows cfg idx rows cache).2.2[i]? = some o → persistedVal o = none →
      countCellWritesAt (idx + i + 2) (runRows cfg idx rows cache).2.1 = 0 := by
  intro rows
  induction rows with
  | nil =>
    intro idx cache i o ho hpv
    simp [runRows_nil] at ho
  | cons row rest ih =>
    intro idx cache i o ho hpv
    rw [runRows_cons] at ho ⊢
    rw [countCellWritesAt_append]
    cases i with
    | zero =>
      simp only [List.getElem?_cons_zero] at ho
      have hoo : o = (processRow cfg idx row cache).2.2 := (Option.some.inj ho).symm
      subst hoo
      have h1 : countCellWritesAt (idx + 0 + 2) (processRow cfg idx row cache).2.1 = 0 := by
        refine countCellWritesAt_eq_zero (fun e he => ?_)
        have := processRow_no_write cfg idx row cache hpv e he
        cases e with
        | headerWrite => rfl
        | fetchCall _ _ => rfl
        | cellWrite r' c' v' => cases this
      have h2 : countCellWritesAt (idx + 0 + 2)
          (runRows cfg (idx + 1) rest (processRow cfg idx row cache).1).2.1 = 0 := by
        refine countCellWritesAt_eq_zero (fun e he => ?_)
        cases e with
        | headerWrite => rfl
        | fetchCall _ _ => rfl
        | cellWrite r' c' v' =>
          have := runRows_writes_ge cfg rest (idx + 1)
            (processRow cfg idx row cache).1 r' c' v' he
          simp only [isCellWriteAt]
          have : r' ≠ idx + 0 + 2 := by omega
          simp [this]
      omega
    | succ i =>
      simp only [List.getElem?_cons_succ] at ho
      have h2 := ih (idx + 1) (processRow cfg idx row cache).1 i o ho hpv
      have h1 : countCellWritesAt (idx + (i + 1) + 2) (processRow cfg idx row cache).2.1 = 0 := by
        refine countCellWritesAt_eq_zero (fun e he => ?_)
        cases e with
        | headerWrite => rfl
        | fetchCall _ _ => rfl
        | cellWrite r' c' v' =>
          have := (processRow_writes_at cfg idx row cache r' c' v' he).1
          simp only [isCellWriteAt]
          have : r' ≠ idx + (i + 1) + 2 := by omega
          simp [this]
      have heq : idx + 1 + i + 2 = idx + (i + 1) + 2 := by omega
      rw [heq] at h2
      omega

-- ------------------------------------------------------------------
-- Pipeline-level lemmas
-- ------------------------------------------------------------------

theorem runPipeline_abort {world : Str → Str → FetchOutcome}
    {headers0 : List Str} {rows0 : List (List Str)}
    (h : findCols (setupStage headers0 rows0).1 = none) :
    runPipeline world headers0 rows0 = ⟨[.headerWrite], none, []⟩ := by
  simp [runPipeline, h]

theorem runPipeline_run {world : Str → Str → FetchOutcome}
    {headers0 : List Str} {rows0 : List (List Str)} {a b c : Nat}
    (h : findCols (setupStage headers0 rows0).1 = some (a, b, c)) :
    runPipeline world headers0 rows0 =
      ⟨.headerWrite :: (runRows ⟨a, b, c, world⟩ 0 (setupStage headers0 rows0).2 []).2.1,
       some (runRows ⟨a, b, c, world⟩ 0 (setupStage headers0 rows0).2 []).2.2,
       (runRows ⟨a, b, c, world⟩ 0 (setupStage headers0 rows0).2 []).1⟩ := by
  simp [runPipeline, h]

theorem filterEvents_zero {p : Event → Bool} :
    ∀ {evs : List Event}, (∀ e ∈ evs, p e = false) → (evs.filter p).length = 0 := by
  intro evs
  induction evs with
  | nil => intro _; rfl
  | cons e rest ih =>
    intro h
    have he := h e (List.mem_cons_self e rest)
    simp only [List.filter, he]
    exact ih (fun e' he' => h e' (List.mem_cons_of_mem e he'))

theorem processRow_no_headerWrite (cfg : Cfg) (idx : Nat) (row : List Str) (cache : Cache) :
    ∀ e ∈ (processRow cfg idx row cache).2.1, isHeaderWrite e = false := by
  intro e he
  rcases processRow_spec cfg idx row cache with ⟨_, _, hev, _⟩ |
    ⟨key, _, ⟨t, _, hpr⟩ | ⟨_, _, hpr⟩ | ⟨t, _, _, hpr⟩⟩
  · rw [hev] at he
    cases he
  · rw [hpr] at he
    simp only [List.mem_cons, List.not_mem_nil, or_false] at he
    rw [he]
    rfl
  · rw [hpr] at he
    simp only [List.mem_cons, List.not_mem_nil, or_false] at he
    rw [he]
    rfl
  · rw [hpr] at he
    simp only [List.mem_cons, List.not_mem_nil, or_false] at he
    rcases he with he | he <;> (rw [he]; rfl)

theorem runRows_no_headerWrite (cfg : Cfg) :
    ∀ (rows : List (List Str)) (idx : Nat) (cache : Cache),
      ∀ e ∈ (runRows cfg idx rows cache).2.1, isHeaderWrite e = false := by
  intro rows
  induction rows with
  | nil =>
    intro idx cache e he
    cases he
  | cons row rest ih =>
    intro idx cache e he
    rw [runRows_cons] at he
    rcases List.mem_append.mp he with he | he
    · exact processRow_no_headerWrite cfg idx row cache e he
    · exact ih (idx + 1) (processRow cfg idx row cache).1 e he

/-- The target cell of a row being non-empty after strip makes the row
skip before the identity stage. -/
theorem rowKeyOf_filled_none (cfg : Cfg) (row : List Str) (tv : Str)
    (htv : row[cfg.turnoverIdx]? = some tv) (hne : pyStrip tv ≠ []) :
    rowKeyOf cfg row = none := by
  have htv0 : tv ≠ [] := by
    intro h
    rw [h] at hne
    exact hne rfl
  rcases hrn : row[cfg.regNumIdx]? with _ | rn
  · simp [rowKeyOf, hrn]
  rcases hnm : row[cfg.regNameIdx]? with _ | nm
  · simp [rowKeyOf, hrn, hnm]
  simp only [rowKeyOf, hrn, hnm, htv]
  by_cases h1 : (pyStrip rn = [] || pyStrip nm = [] || pyLower (pyStrip rn) = nanStr) = true
  · simp [h1]
  · rw [Bool.not_eq_true] at h1
    simp [h1, htv0, hne]

theorem collapseWsAux_false_space {c : Char} {rest : Str} (h : pyIsSpace c = true) :
    collapseWsAux false (c :: rest) = '-' :: collapseWsAux true rest := by
  simp [collapseWsAux, h]

theorem collapseWsAux_nonspace (b : Bool) {c : Char} {rest : Str}
    (h : pyIsSpace c = false) :
    collapseWsAux b (c :: rest) = c :: collapseWsAux false rest := by
  simp [collapseWsAux, h]

theorem collapseWsAux_true_of_head {l : Str}
    (h : ∀ b bs, l = b :: bs → pyIsSpace b = false) :
    collapseWsAux true l = collapseWsAux false l := by
  cases l with
  | nil => rfl
  | cons b bs =>
    have hb := h b bs rfl
    rw [collapseWsAux_nonspace true hb, collapseWsAux_nonspace false hb]

/-- When all whitespace is the plain space and no two whitespace characters
are adjacent, mapping each space to a hyphen (the source's final step)
coincides with collapsing each whitespace run to one hyphen (the spec's
final step). -/
theorem mapHyphen_eq_collapse {l : Str}
    (h1 : ∀ c ∈ l, pyIsSpace c = true → c = ' ')
    (h2 : noAdjWs l = true) :
    l.map (fun c => if c = ' ' then '-' else c) = collapseWsAux false l := by
  induction l with
  | nil => rfl
  | cons a rest ih =>
    have h1rest : ∀ c ∈ rest, pyIsSpace c = true → c = ' ' :=
      fun c hc => h1 c (List.mem_cons_of_mem a hc)
    have h2rest : noAdjWs rest = true := by
      cases rest with
      | nil => rfl
      | cons b bs =>
        have h2' := h2
        simp only [noAdjWs, Bool.and_eq_true] at h2'
        exact h2'.2
    by_cases ha : pyIsSpace a = true
    · have haSp : a = ' ' := h1 a (List.mem_cons_self a rest) ha
      subst haSp
      have hhead : ∀ b bs, rest = b :: bs → pyIsSpace b = false := by
        intro b bs hbb
        subst hbb
        have h2' := h2
        simp only [noAdjWs, Bool.and_eq_true, Bool.not_eq_eq_eq_not, Bool.not_true,
          Bool.and_eq_false_iff] at h2'
        rcases h2'.1 with h | h
        · rw [ha] at h
          cases h
        · exact h
      rw [List.map_cons, if_pos rfl, collapseWsAux_false_space ha,
        collapseWsAux_true_of_head hhead, ← ih h1rest h2rest]
    · rw [Bool.not_eq_true] at ha
      have haNe : a ≠ ' ' := by
        intro he
        rw [he] at ha
        exact absurd ha (by decide)
      rw [List.map_cons, if_neg haNe, collapseWsAux_nonspace false ha,
        ih h1rest h2rest]

-- ------------------------------------------------------------------
-- Claims
-- ------------------------------------------------------------------

/-- C2 (counterexample): with a header lacking the identifier column the
run does abort before any row, but at that moment one Data Store write —
the unconditional header write of line 38 — has already been made, so
"zero Data Store Client write calls" is false as stated. -/
theorem C2_counterexample :
    (runPipeline (fun _ _ => FetchOutcome.noValue) [str "X"] []).outcomes = none ∧
    countStoreWrites (runPipeline (fun _ _ => FetchOutcome.noValue) [str "X"] []).events ≠ 0 := by
  decide

/-- C2 (amended): if the identifier column or the name column is absent
from the (post-setup) header, the run aborts before any row is processed,
with zero Fetch Client calls and zero per-row cell writes; the single
Data Store write in the trace is the already-made header write. -/
theorem C2_missing_column_aborts (world : Str → Str → FetchOutcome)
    (headers0 : List Str) (rows0 : List (List Str))
    (habs : chrnStr ∉ (setupStage headers0 rows0).1 ∨
      companyStr ∉ (setupStage headers0 rows0).1) :
    (runPipeline world headers0 rows0).outcomes = none ∧
    countFetches (runPipeline world headers0 rows0).events = 0 ∧
    countCellWrites (runPipeline world headers0 rows0).events = 0 ∧
    countStoreWrites (runPipeline world headers0 rows0).events = 1 := by
  have hnone : ∀ s : Str, s ∉ (setupStage headers0 rows0).1 →
      (setupStage headers0 rows0).1.findIdx? (· = s) = none := by
    intro s hs
    exact List.findIdx?_eq_none_iff.mpr (fun x hx => decide_eq_false (fun he => hs (he ▸ hx)))
  have hcols : findCols (setupStage headers0 rows0).1 = none := by
    unfold findCols
    rcases habs with h | h
    · rw [hnone _ h]
    · rcases h1 : (setupStage headers0 rows0).1.findIdx? (· = chrnStr) with _ | a
      · rfl
      · rw [hnone _ h]
  rw [runPipeline_abort hcols]
  exact ⟨rfl, rfl, rfl, rfl⟩

/-- C2 witness: a concrete header missing both expected columns. -/
theorem C2_missing_column_aborts_witness :
    chrnStr ∉ (setupStage [str "X"] []).1 ∧
    ((runPipeline (fun _ _ => FetchOutcome.noValue) [str "X"] []).outcomes = none ∧
     countFetches (runPipeline (fun _ _ => FetchOutcome.noValue) [str "X"] []).events = 0 ∧
     countCellWrites (runPipeline (fun _ _ => FetchOutcome.noValue) [str "X"] []).events = 0 ∧
     countStoreWrites (runPipeline (fun _ _ => FetchOutcome.noValue) [str "X"] []).events = 1) :=
  ⟨by decide, C2_missing_column_aborts (fun _ _ => FetchOutcome.noValue) [str "X"] []
    (Or.inl (by decide))⟩

/-- C4 (counterexample): on `"a  b"` the source slug keeps one hyphen per
space (`"a--b"`), while replacing the maximal whitespace run by exactly one
hyphen (the claim, `slug_spec`) would give `"a-b"`. -/
theorem C4_counterexample :
    create_endole_slug (str "a  b") = str "a--b" ∧
    create_endole_slug (str "a  b") ≠ slug_spec (str "a  b") ∧
    slug_spec (str "a  b") = str "a-b" := by
  decide

/-- C4 (amended): the final step replaces each single space character by
exactly one hyphen (so a run of k spaces yields k hyphens and non-space
whitespace is left unchanged); whenever every remaining whitespace run
after trimming, lowercasing, ampersand replacement and punctuation removal
is a lone space, this coincides with the spec's run-collapsing step. -/
theorem C4_single_space_agreement (x : Str)
    (h1 : ∀ c ∈ slugStem x, pyIsSpace c = true → c = ' ')
    (h2 : noAdjWs (slugStem x) = true) :
    create_endole_slug x = slug_spec x :=
  mapHyphen_eq_collapse h1 h2

/-- C4 witness: a concrete input with single-space runs. -/
theorem C4_single_space_agreement_witness :
    (∀ c ∈ slugStem (str "Acme & Co Ltd"), pyIsSpace c = true → c = ' ') ∧
    noAdjWs (slugStem (str "Acme & Co Ltd")) = true ∧
    create_endole_slug (str "Acme & Co Ltd") = slug_spec (str "Acme & Co Ltd") :=
  ⟨by decide, by decide,
   C4_single_space_agreement (str "Acme & Co Ltd") (by decide) (by decide)⟩

/-- C5 (counterexample): on `",\ta"` the slug derivation is not idempotent:
removing the comma exposes a leading tab which only the second
application's strip removes. -/
theorem C5_counterexample :
    create_endole_slug (create_endole_slug (str ",\ta")) ≠
      create_endole_slug (str ",\ta") := by
  decide

/-- C5 (amended): slug derivation is idempotent on every input whose
whitespace characters — in Python's `str.isspace` sense, so including
tabs, no-break spaces and the Unicode spaces — are all plain spaces. -/
theorem C5_slug_idem (x : Str) (hx : ∀ c ∈ x, pyIsSpace c = true → c = ' ') :
    create_endole_slug (create_endole_slug x) = create_endole_slug x :=
  create_endole_slug_idem hx

/-- C5 witness: idempotence at a concrete space-only input. -/
theorem C5_slug_idem_witness :
    (∀ c ∈ str " O'Brien & Sons, Ltd. ", pyIsSpace c = true → c = ' ') ∧
    create_endole_slug (create_endole_slug (str " O'Brien & Sons, Ltd. ")) =
      create_endole_slug (str " O'Brien & Sons, Ltd. ") :=
  ⟨by decide, C5_slug_idem (str " O'Brien & Sons, Ltd. ") (by decide)⟩

/-- C6 (counterexample): a row whose target cell holds `" "` — a non-empty
string — is treated as unfilled (line 108 strips it), so the row is fetched
and written, contradicting "zero Fetch Client calls and zero Data Store
Client writes" for rows with a non-empty target cell. -/
theorem C6_counterexample :
    str " " ≠ [] ∧
    (runPipeline (fun _ _ => FetchOutcome.noValue) [chrnStr, companyStr, ivtStr]
      [[str "1", str "a", str " "]]).events =
    [Event.headerWrite, Event.fetchCall (str "1") (str "a"),
     Event.cellWrite 2 3 naStr] := by
  decide

/-- C6 (amended): for every row whose target cell is non-empty after
stripping whitespace, the loop body issues zero Fetch Client calls and
zero Data Store writes and leaves the cache untouched, so a previously
filled value is never overwritten or re-fetched by a re-run. -/
theorem C6_filled_row_untouched (cfg : Cfg) (idx : Nat) (row : List Str) (cache : Cache)
    (tv : Str) (htv : row[cfg.turnoverIdx]? = some tv) (hne : pyStrip tv ≠ []) :
    (processRow cfg idx row cache).1 = cache ∧
    (processRow cfg idx row cache).2.1 = [] ∧
    persistedVal (processRow cfg idx row cache).2.2 = none := by
  have hk := rowKeyOf_filled_none cfg row tv htv hne
  rcases processRow_spec cfg idx row cache with ⟨_, hc, hev, hpv⟩ | ⟨key, hkey, _⟩
  · exact ⟨hc, hev, hpv⟩
  · rw [hk] at hkey
    cases hkey

/-- C6 witness: a concrete filled row. -/
theorem C6_filled_row_untouched_witness :
    ([str "1", str "a", str "£5m"] : List Str)[(2 : Nat)]? = some (str "£5m") ∧
    pyStrip (str "£5m") ≠ [] ∧
    (processRow ⟨0, 1, 2, fun _ _ => FetchOutcome.noValue⟩ 0
        [str "1", str "a", str "£5m"] []).1 = [] ∧
    (processRow ⟨0, 1, 2, fun _ _ => FetchOutcome.noValue⟩ 0
        [str "1", str "a", str "£5m"] []).2.1 = [] ∧
    persistedVal (processRow ⟨0, 1, 2, fun _ _ => FetchOutcome.noValue⟩ 0
        [str "1", str "a", str "£5m"] []).2.2 = none := by
  refine ⟨by decide, by decide, ?_⟩
  exact C6_filled_row_untouched ⟨0, 1, 2, fun _ _ => FetchOutcome.noValue⟩ 0
    [str "1", str "a", str "£5m"] [] (str "£5m") (by decide) (by decide)

/-- C7: a row with an empty (trimmed) identifier, an empty (trimmed)
display name, or an identifier equal to the null marker `"nan"`
case-insensitively, is silently skipped: no fetch, no write, no cache
interaction, outcome `skippedInvalid` (not an error). -/
theorem C7_invalid_row_skipped (cfg : Cfg) (idx : Nat) (row : List Str) (cache : Cache)
    (rn nm tv : Str)
    (hrn : row[cfg.regNumIdx]? = some rn) (hnm : row[cfg.regNameIdx]? = some nm)
    (htv : row[cfg.turnoverIdx]? = some tv)
    (h : pyStrip rn = [] ∨ pyStrip nm = [] ∨ pyLower (pyStrip rn) = nanStr) :
    processRow cfg idx row cache = (cache, [], RowOutcome.skippedInvalid) := by
  have hb : (pyStrip rn = [] || pyStrip nm = [] || pyLower (pyStrip rn) = nanStr) = true := by
    rcases h with h | h | h <;> simp [h]
  simp [processRow, hrn, hnm, htv, hb]

/-- C7 witness: a concrete row with a `"NaN"` identifier. -/
theorem C7_invalid_row_skipped_witness :
    ([str "NaN", str "a", str ""] : List Str)[(0 : Nat)]? = some (str "NaN") ∧
    pyLower (pyStrip (str "NaN")) = nanStr ∧
    processRow ⟨0, 1, 2, fun _ _ => FetchOutcome.noValue⟩ 3
        [str "NaN", str "a", str ""] [] = ([], [], RowOutcome.skippedInvalid) := by
  refine ⟨by decide, by decide, ?_⟩
  exact C7_invalid_row_skipped ⟨0, 1, 2, fun _ _ => FetchOutcome.noValue⟩ 3
    [str "NaN", str "a", str ""] [] (str "NaN") (str "a") (str "")
    (by decide) (by decide) (by decide) (Or.inr (Or.inr (by decide)))

/-- C8: a row that persists value `v` does so through exactly one cell
write, at 1-based grid row `idx + 2` (in-memory index plus the header
offset) and 1-based column `turnoverIdx + 1`, on the cache-hit path and
the fresh-fetch path alike. -/
theorem C8_single_write_at_grid (cfg : Cfg) (idx : Nat) (row : List Str) (cache : Cache)
    (v : Str) (b : Bool)
    (h : (processRow cfg idx row cache).2.2 = RowOutcome.persisted v b) :
    (processRow cfg idx row cache).2.1.filter isCellWrite =
      [Event.cellWrite (idx + 2) (cfg.turnoverIdx + 1) v] :=
  processRow_persist_write cfg idx row cache v b h

/-- C8 witness: a concrete cache-hit row at in-memory index 5 writes grid
row 7, column 3. -/
theorem C8_single_write_at_grid_witness :
    (processRow ⟨0, 1, 2, fun _ _ => FetchOutcome.noValue⟩ 5 [str "1", str "a", str ""]
        [((str "1", str "a"), str "£9m")]).2.2 =
      RowOutcome.persisted (str "£9m") false ∧
    (processRow ⟨0, 1, 2, fun _ _ => FetchOutcome.noValue⟩ 5 [str "1", str "a", str ""]
        [((str "1", str "a"), str "£9m")]).2.1.filter isCellWrite =
      [Event.cellWrite 7 3 (str "£9m")] := by
  refine ⟨by decide, ?_⟩
  exact C8_single_write_at_grid ⟨0, 1, 2, fun _ _ => FetchOutcome.noValue⟩ 5
    [str "1", str "a", str ""] [((str "1", str "a"), str "£9m")] (str "£9m") false (by decide)

/-- C9: on every run — also when the target column is already present so
the header is unchanged — the header row is written exactly once, and it
is the first Data Store interaction, preceding the column lookup that can
abort the run (the header write is present even in aborted traces). -/
theorem C9_header_written_once (world : Str → Str → FetchOutcome)
    (headers0 : List Str) (rows0 : List (List Str)) :
    countHeaderWrites (runPipeline world headers0 rows0).events = 1 ∧
    (runPipeline world headers0 rows0).events.head? = some Event.headerWrite := by
  rcases hcols : findCols (setupStage headers0 rows0).1 with _ | ⟨a, b, c⟩
  · rw [runPipeline_abort hcols]
    exact ⟨rfl, rfl⟩
  · rw [runPipeline_run hcols]
    constructor
    · have h0 : ((runRows ⟨a, b, c, world⟩ 0 (setupStage headers0 rows0).2 []).2.1.filter
          isHeaderWrite).length = 0 :=
        filterEvents_zero (runRows_no_headerWrite ⟨a, b, c, world⟩
          (setupStage headers0 rows0).2 0 [])
      simp only [countHeaderWrites, List.filter_cons_of_pos (by rfl : isHeaderWrite
        Event.headerWrite = true), List.length_cons, h0]
    · rfl

theorem countFetchesFor_cons_hw (K : Str × Str) (evs : List Event) :
    countFetchesFor K (Event.headerWrite :: evs) = countFetchesFor K evs := by
  simp only [countFetchesFor]
  rw [List.filter_cons_of_neg (by simp [isFetchFor])]

theorem countCellWritesAt_cons_hw (r : Nat) (evs : List Event) :
    countCellWritesAt r (Event.headerWrite :: evs) = countCellWritesAt r evs := by
  simp only [countCellWritesAt]
  rw [List.filter_cons_of_neg (by simp [isCellWriteAt])]

/-- C1 (amended): whenever the fetch for an identity `K` succeeds
(including the sentinel case), the whole run fetches `K` exactly once
when any two rows (indeed, when at least one row) reach the identity
stage with key `K`, and every such row persists the same value, the one
the fetch returns — so the second row's persisted value equals the first
row's fetched value. (When the fetch for `K` raises instead, a second
row with identity `K` does trigger a second fetch: see the
counterexample.) -/
theorem C1_identity_fetched_once (world : Str → Str → FetchOutcome)
    (headers0 : List Str) (rows0 : List (List Str)) (a b c : Nat)
    (hcols : findCols (setupStage headers0 rows0).1 = some (a, b, c))
    (K : Str × Str) (vK : Str)
    (hS : scrape_company_data (world K.1 K.2) = some vK)
    (i j : Nat) (ri rj : List Str)
    (hri : (setupStage headers0 rows0).2[i]? = some ri)
    (hrj : (setupStage headers0 rows0).2[j]? = some rj)
    (hki : rowKeyOf ⟨a, b, c, world⟩ ri = some K)
    (hkj : rowKeyOf ⟨a, b, c, world⟩ rj = some K) :
    countFetchesFor K (runPipeline world headers0 rows0).events = 1 ∧
    (∃ oi, ((runPipeline world headers0 rows0).outcomes.bind (fun os => os[i]?)) = some oi ∧
      persistedVal oi = some vK) ∧
    (∃ oj, ((runPipeline world headers0 rows0).outcomes.bind (fun os => os[j]?)) = some oj ∧
      persistedVal oj = some vK) := by
  rw [runPipeline_run hcols]
  have hsound0 : CacheSound world [] := by
    intro k v h
    cases h
  obtain ⟨hs, hflag, hmono, hout⟩ :=
    runRows_success_inv ⟨a, b, c, world⟩ K vK hS (setupStage headers0 rows0).2 0 [] hsound0
  obtain ⟨oi, hoi, hpi, hlk⟩ := hout i ri hri hki
  obtain ⟨oj, hoj, hpj, _⟩ := hout j rj hrj hkj
  refine ⟨?_, ⟨oi, by simp [hoi], hpi⟩, ⟨oj, by simp [hoj], hpj⟩⟩
  dsimp only
  rw [countFetchesFor_cons_hw]
  have h1 : keyFlag (runRows ⟨a, b, c, world⟩ 0 (setupStage headers0 rows0).2 []).1 K = 1 := by
    simp [keyFlag, hlk]
  have h0 : keyFlag ([] : Cache) K = 0 := rfl
  omega

/-- C1 witness: two rows with the same identity, a succeeding fetch. -/
theorem C1_identity_fetched_once_witness :
    findCols (setupStage [chrnStr, companyStr] [[str "1", str "a"], [str "1", str "a"]]).1 =
      some (0, 1, 2) ∧
    countFetchesFor (str "1", str "a")
      (runPipeline (fun _ _ => FetchOutcome.noValue) [chrnStr, companyStr]
        [[str "1", str "a"], [str "1", str "a"]]).events = 1 ∧
    (∃ oi, (((runPipeline (fun _ _ => FetchOutcome.noValue) [chrnStr, companyStr]
        [[str "1", str "a"], [str "1", str "a"]]).outcomes.bind (fun os => os[(0 : Nat)]?)) =
          some oi ∧ persistedVal oi = some naStr)) ∧
    (∃ oj, (((runPipeline (fun _ _ => FetchOutcome.noValue) [chrnStr, companyStr]
        [[str "1", str "a"], [str "1", str "a"]]).outcomes.bind (fun os => os[(1 : Nat)]?)) =
          some oj ∧ persistedVal oj = some naStr)) := by
  refine ⟨by decide, ?_⟩
  exact C1_identity_fetched_once (fun _ _ => FetchOutcome.noValue) [chrnStr, companyStr]
    [[str "1", str "a"], [str "1", str "a"]] 0 1 2 (by decide)
    (str "1", str "a") naStr rfl 0 1 [str "1", str "a", []] [str "1", str "a", []]
    (by decide) (by decide) (by decide) (by decide)

/-- C1 (counterexample): when the first fetch of an identity fails by
navigation error, nothing is cached, and a second row with the same
identity does trigger a second fetch — "never trigger two fetches within
one run" is false as stated. -/
theorem C1_counterexample :
    countFetchesFor (str "1", str "a")
      (runPipeline (fun _ _ => FetchOutcome.navFail) [chrnStr, companyStr]
        [[str "1", str "a"], [str "1", str "a"]]).events = 2 := by
  decide

/-- C3 (amended): a row whose fetch raises — navigation failure or timeout
— is abandoned: its grid cell is written by no event of the whole run, the
loop still yields one outcome for every row (the next row is processed),
and the total number of fetches for that identity equals the number of
rows reaching the fetch stage with it (one attempt per row, no retries).
An exception during value extraction, by contrast, does not raise: it
yields the sentinel, which IS written (see the counterexample). -/
theorem C3_nav_failure_row_abandoned (world : Str → Str → FetchOutcome)
    (headers0 : List Str) (rows0 : List (List Str)) (a b c : Nat)
    (hcols : findCols (setupStage headers0 rows0).1 = some (a, b, c))
    (K : Str × Str) (hN : scrape_company_data (world K.1 K.2) = none)
    (i : Nat) (ri : List Str)
    (hri : (setupStage headers0 rows0).2[i]? = some ri)
    (hki : rowKeyOf ⟨a, b, c, world⟩ ri = some K) :
    ((runPipeline world headers0 rows0).outcomes.bind (fun os => os[i]?)) =
      some RowOutcome.abandoned ∧
    countCellWritesAt (i + 2) (runPipeline world headers0 rows0).events = 0 ∧
    (runPipeline world headers0 rows0).outcomes.map List.length =
      some (setupStage headers0 rows0).2.length ∧
    countFetchesFor K (runPipeline world headers0 rows0).events =
      (setupStage headers0 rows0).2.countP
        (fun r => rowKeyOf ⟨a, b, c, world⟩ r = some K) := by
  rw [runPipeline_run hcols]
  have hsound0 : CacheSound world [] := by
    intro k v h
    cases h
  obtain ⟨hs, hcount, habd⟩ :=
    runRows_fail_inv ⟨a, b, c, world⟩ K hN (setupStage headers0 rows0).2 0 [] hsound0
  have hoi := habd i ri hri hki
  refine ⟨by simp [hoi], ?_, by simp [runRows_length], ?_⟩
  · dsimp only
    rw [countCellWritesAt_cons_hw]
    have hz := runRows_no_write_at ⟨a, b, c, world⟩ (setupStage headers0 rows0).2 0 []
      i RowOutcome.abandoned hoi rfl
    simpa using hz
  · dsimp only
    rw [countFetchesFor_cons_hw]
    exact hcount

/-- C3 witness: a navigation failure on the first of two rows: the first
row is abandoned with no write to grid row 2, both rows still get an
outcome, and its identity is fetched exactly once. -/
theorem C3_nav_failure_row_abandoned_witness :
    scrape_company_data ((fun _ _ => FetchOutcome.navFail) (str "1") (str "a")) = none ∧
    (((runPipeline (fun _ _ => FetchOutcome.navFail) [chrnStr, companyStr]
        [[str "1", str "a"], [str "2", str "b"]]).outcomes.bind
          (fun os => os[(0 : Nat)]?)) = some RowOutcome.abandoned ∧
     countCellWritesAt 2 (runPipeline (fun _ _ => FetchOutcome.navFail)
        [chrnStr, companyStr] [[str "1", str "a"], [str "2", str "b"]]).events = 0 ∧
     (runPipeline (fun _ _ => FetchOutcome.navFail) [chrnStr, companyStr]
        [[str "1", str "a"], [str "2", str "b"]]).outcomes.map List.length =
       some (setupStage [chrnStr, companyStr]
         [[str "1", str "a"], [str "2", str "b"]]).2.length ∧
     countFetchesFor (str "1", str "a")
       (runPipeline (fun _ _ => FetchOutcome.navFail) [chrnStr, companyStr]
         [[str "1", str "a"], [str "2", str "b"]]).events =
       (setupStage [chrnStr, companyStr] [[str "1", str "a"], [str "2", str "b"]]).2.countP
         (fun r => rowKeyOf ⟨0, 1, 2, fun _ _ => FetchOutcome.navFail⟩ r =
           some (str "1", str "a"))) := by
  refine ⟨rfl, ?_⟩
  exact C3_nav_failure_row_abandoned (fun _ _ => FetchOutcome.navFail)
    [chrnStr, companyStr] [[str "1", str "a"], [str "2", str "b"]] 0 1 2 (by decide)
    (str "1", str "a") rfl 0 [str "1", str "a", []] (by decide) (by decide)

/-- C3 (counterexample): an exception during value extraction does not
leave the row's cell unchanged: `scrape_company_data` swallows it and
returns the sentinel `"N/A"`, which is then written to the row. -/
theorem C3_counterexample :
    (runPipeline (fun _ _ => FetchOutcome.extractErr) [chrnStr, companyStr]
      [[str "1", str "a"]]).events =
      [Event.headerWrite, Event.fetchCall (str "1") (str "a"),
       Event.cellWrite 2 3 naStr] ∧
    (runPipeline (fun _ _ => FetchOutcome.extractErr) [chrnStr, companyStr]
      [[str "1", str "a"]]).outcomes = some [RowOutcome.persisted naStr true] := by
  decide

/-- C10: the not-found sentinel is the literal string `"N/A"`: it is what
`scrape_company_data` returns both when the loaded page has no value and
when extraction raises; a freshly fetched sentinel is cached under the
row's identity and written to the row's cell exactly like a genuine value;
and a row whose target cell already holds `"N/A"` passes the already-filled
check, so on a later run it gets zero fetches and zero writes — a
not-found outcome is never re-attempted once written. -/
theorem C10_sentinel_na :
    naStr = str "N/A" ∧
    scrape_company_data FetchOutcome.noValue = some naStr ∧
    scrape_company_data FetchOutcome.extractErr = some naStr ∧
    (∀ (cfg : Cfg) (idx : Nat) (row : List Str) (cache : Cache) (K : Str × Str),
      rowKeyOf cfg row = some K → lookupCache cache K = none →
      cfg.world K.1 K.2 = FetchOutcome.noValue →
      processRow cfg idx row cache =
        ((K, naStr) :: cache,
         [Event.fetchCall K.1 K.2, Event.cellWrite (idx + 2) (cfg.turnoverIdx + 1) naStr],
         RowOutcome.persisted naStr true)) ∧
    (∀ (cfg : Cfg) (idx : Nat) (row : List Str) (cache : Cache),
      row[cfg.turnoverIdx]? = some naStr →
      (processRow cfg idx row cache).1 = cache ∧
      (processRow cfg idx row cache).2.1 = [] ∧
      persistedVal (processRow cfg idx row cache).2.2 = none) := by
  refine ⟨rfl, rfl, rfl, ?_, ?_⟩
  · intro cfg idx row cache K hk hcl hw
    rcases processRow_spec cfg idx row cache with ⟨hnone, _, _, _⟩ |
      ⟨key, hkey, ⟨t, hcl2, hpr⟩ | ⟨hcl2, hsc, hpr⟩ | ⟨t, hcl2, hsc, hpr⟩⟩
    · rw [hnone] at hk
      cases hk
    · have hkk : key = K := by
        rw [hkey] at hk
        exact Option.some.inj hk
      rw [hkk, hcl] at hcl2
      cases hcl2
    · have hkk : key = K := by
        rw [hkey] at hk
        exact Option.some.inj hk
      rw [hkk, hw] at hsc
      rw [show scrape_company_data FetchOutcome.noValue = some naStr from rfl] at hsc
      cases hsc
    · have hkk : key = K := by
        rw [hkey] at hk
        exact Option.some.inj hk
      rw [hkk, hw] at hsc
      rw [show scrape_company_data FetchOutcome.noValue = some naStr from rfl] at hsc
      have ht : naStr = t := Option.some.inj hsc
      rw [hpr, hkk, ← ht]
  · intro cfg idx row cache htv
    have hk := rowKeyOf_filled_none cfg row naStr htv (by decide)
    rcases processRow_spec cfg idx row cache with ⟨_, hc, hev, hpv⟩ | ⟨key, hkey, _⟩
    · exact ⟨hc, hev, hpv⟩
    · rw [hk] at hkey
      cases hkey

/-- C10 witness: a fresh sentinel fetch is cached and written; a row whose
cell holds the sentinel is skipped with no events. -/
theorem C10_sentinel_na_witness :
    processRow ⟨0, 1, 2, fun _ _ => FetchOutcome.noValue⟩ 0 [str "1", str "a", str ""] [] =
      (((str "1", str "a"), naStr) :: [],
       [Event.fetchCall (str "1") (str "a"), Event.cellWrite 2 3 naStr],
       RowOutcome.persisted naStr true) ∧
    (processRow ⟨0, 1, 2, fun _ _ => FetchOutcome.noValue⟩ 0 [str "1", str "a", naStr] []).2.1 =
      [] := by
  constructor
  · exact C10_sentinel_na.2.2.2.1 ⟨0, 1, 2, fun _ _ => FetchOutcome.noValue⟩ 0
      [str "1", str "a", str ""] [] (str "1", str "a") (by decide) rfl rfl
  · exact (C10_sentinel_na.2.2.2.2 ⟨0, 1, 2, fun _ _ => FetchOutcome.noValue⟩ 0
      [str "1", str "a", naStr] [] (by decide)).2.1
